import Mathlib

/-!
Verification of the ai-gateway routing core: a shallow embedding of the
routing, retry/fallback, latency-tracking, timeout-resolution and
cost-accounting code of the ai-gateway repository, together with proofs and
refutations of the specification claims about it.

Conventions used throughout:
* JS `number` values are modelled as `ℚ` (`Rat`); where the code can receive
  `NaN`/`Infinity` a dedicated `JsNum` type makes finiteness explicit.
* `Date.now()` and `Math.random()` are ambient effects; they are threaded in
  as explicit oracle parameters (`startTs`, `lat`, `rand`).
* Fallible code returns `Option`/`Except`; thrown JS values are modelled by
  the `JsError` type, which distinguishes the cases the code itself
  distinguishes via `instanceof`.
-/

namespace AIGateway

/-! CircularBuffer (src/metrics/latency-tracker.ts, lines 21-62)

The buffer backing array is a JS array of `T | undefined`; we model the slots
as `Option T` (`none` = `undefined`).  `toArray` in the source casts each read
slot with `as T`; the model keeps the `Option` wrapper, so a faithfully read
slot appears as `some v`. -/

structure CircularBuffer (T : Type) where
  buf : List (Option T)
  head : Nat
  count : Nat
  capacity : Nat
deriving DecidableEq

/-- `new CircularBuffer(capacity)`: pre-allocated array of `undefined`. -/
def CircularBuffer.empty (T : Type) (c : Nat) : CircularBuffer T :=
  { buf := List.replicate c none, head := 0, count := 0, capacity := c }

/-- `push(value)`: write at `head`, advance `head` mod capacity, saturate `count`. -/
def CircularBuffer.push (b : CircularBuffer T) (v : T) : CircularBuffer T :=
  { b with
    buf := b.buf.set b.head (some v)
    head := (b.head + 1) % b.capacity
    count := if b.count < b.capacity then b.count + 1 else b.count }

/-- `get length()`: number of values currently stored. -/
def CircularBuffer.length (b : CircularBuffer T) : Nat := b.count

/-- `toArray()`: dense snapshot in insertion order.  The source computes the
start slot as `(head - count + capacity) % capacity`; since `count ≤ capacity`
that expression is the non-negative `head + capacity - count`, so the JS `%`
coincides with `Nat` mod. -/
def CircularBuffer.toArray (b : CircularBuffer T) : List (Option T) :=
  (List.range b.count).map
    (fun i => b.buf.getD ((b.head + b.capacity - b.count + i) % b.capacity) none)

/-- Push a whole sequence of values, oldest first. -/
def CircularBuffer.pushAll (b : CircularBuffer T) (xs : List T) : CircularBuffer T :=
  xs.foldl CircularBuffer.push b

/-! Retry strategy (src/routing/retry-strategy.ts) -/

/-- Thrown JS values, distinguished exactly as `isRetryableError` does:
`APICallError` (with its optional `statusCode`), any other `Error` (carrying
its message), and a non-`Error` thrown value (carrying its string form). -/
inductive JsError where
  | apiCallError (statusCode : Option Int) (message : String)
  | genericError (message : String)
  | nonError (txt : String)
deriving DecidableEq

/-- JS `hay.includes(needle)` on strings. -/
def stringIncludes (hay needle : String) : Bool :=
  decide (needle.toList <:+: hay.toList)

/-- JS `s.toLowerCase()` (character-wise lowering, which is what the matched
ASCII phrases need). -/
def jsToLowerCase (s : String) : String :=
  String.mk (s.data.map Char.toLower)

/-- `MAX_RETRIES` constant. -/
def MAX_RETRIES : Nat := 2

/-- `BASE_BACKOFF_MS` constant. -/
def BASE_BACKOFF_MS : ℚ := 500

/-- `isRetryableError(error)`, lines 17-46 of retry-strategy.ts, with the
branch structure of the source: the `APICallError` branch returns before the
message is ever inspected, a non-`Error` value matches neither branch. -/
def isRetryableError : JsError → Bool
  | .apiCallError statusCode _ =>
    match statusCode with
    | some status => status == 429 || 500 ≤ status
    | none => true
  | .genericError message =>
    let msg := jsToLowerCase message
    stringIncludes msg "timeout" ||
    stringIncludes msg "timed out" ||
    stringIncludes msg "econnreset" ||
    stringIncludes msg "econnrefused" ||
    stringIncludes msg "socket hang up" ||
    stringIncludes msg "network" ||
    stringIncludes msg "fetch failed" ||
    stringIncludes msg "abort"
  | .nonError _ => false

/-- The transient-message phrases recognised by `isRetryableError`, as a list
(used only to state the characterisation theorem). -/
def TRANSIENT_PHRASES : List String :=
  ["timeout", "timed out", "econnreset", "econnrefused",
   "socket hang up", "network", "fetch failed", "abort"]

/-- Message test of `isRetryableError`, phrased over `TRANSIENT_PHRASES`. -/
def containsTransientPhrase (message : String) : Bool :=
  TRANSIENT_PHRASES.any (fun ph => stringIncludes (jsToLowerCase message) ph)

/-- `calculateBackoff(attempt, baseMs)`, lines 58-65 of retry-strategy.ts.
`Math.random()` is passed in as the oracle `rand ∈ [0,1)`; `Math.floor` is
`Int.floor`. -/
def calculateBackoff (attempt : Nat) (baseMs : ℚ) (rand : ℚ) : ℚ :=
  let maxDelay : ℚ := 10000
  let exponentialDelay : ℚ := baseMs * 2 ^ attempt
  let capped : ℚ := min exponentialDelay maxDelay
  ((⌊rand * capped⌋ : ℤ) : ℚ)

/-! Fallback handler (src/routing/fallback-handler.ts)

The executor `executeFn` is an async function whose outcome can differ on
every invocation; it is modelled as an oracle `exec : Nat → String → Except
JsError α` indexed by the global call counter.  `Date.now()` readings are the
oracles `startTs` (time at the start of the k-th call) and `lat` (duration of
the k-th call).  The `sleep(backoff)` between retries only delays execution
and leaves no trace in the attempt log, so it does not appear in the model. -/

structure RetryAttempt where
  provider : String
  error : Option JsError
  latencyMs : Int
  timestamp : Int
deriving DecidableEq

structure FallbackConfig where
  maxRetries : Nat
  baseBackoffMs : ℚ
deriving DecidableEq

/-- `DEFAULT_CONFIG` of fallback-handler.ts. -/
def DEFAULT_CONFIG : FallbackConfig :=
  { maxRetries := MAX_RETRIES, baseBackoffMs := BASE_BACKOFF_MS }

/-- `err instanceof Error ? err : new Error(String(err))`: the logged error. -/
def toLoggedError : JsError → JsError
  | .nonError s => .genericError s
  | e => e

structure FallbackResult (α : Type) where
  result : α
  attemptsUsed : Nat
  providersTriedCount : Nat
  attempts : List RetryAttempt

/-- `AllProvidersFailedError` carries the attempt log and `statusCode = 503`. -/
structure AllProvidersFailedError where
  attempts : List RetryAttempt
  statusCode : Nat

def mkAllProvidersFailedError (attempts : List RetryAttempt) : AllProvidersFailedError :=
  { attempts := attempts, statusCode := 503 }

/-- Outcome of `executeWithFallback`: a `FallbackResult` or the thrown
`AllProvidersFailedError`. -/
inductive FbOutcome (α : Type) where
  | ok (r : FallbackResult α)
  | allFailed (e : AllProvidersFailedError)

/-- The attempt log visible in either outcome. -/
def FbOutcome.attemptsOf : FbOutcome α → List RetryAttempt
  | .ok r => r.attempts
  | .allFailed e => e.attempts

/-- Inner retry loop of `tryProvider` (lines 105-178): `attempt` is the loop
counter, `fuel` the remaining iterations (`maxAttempts - attempt`), `k` the
global call counter.  Returns the result (if any), the new call counter, and
the attempts pushed by this provider.  The source mutates a shared `attempts`
array; the model returns the pushed suffix and the caller appends it. -/
def tryProviderGo (cfg : FallbackConfig) (exec : Nat → String → Except JsError α)
    (startTs lat : Nat → Int) (provider : String) :
    Nat → Nat → Nat → Option α × Nat × List RetryAttempt
  | _, 0, k => (none, k, [])
  | attempt, fuel + 1, k =>
    match exec k provider with
    | .ok v =>
      (some v, k + 1,
        [{ provider := provider, error := none, latencyMs := lat k, timestamp := startTs k }])
    | .error err =>
      let entry : RetryAttempt :=
        { provider := provider, error := some (toLoggedError err),
          latencyMs := lat k, timestamp := startTs k }
      if isRetryableError err ∧ attempt < cfg.maxRetries then
        let r := tryProviderGo cfg exec startTs lat provider (attempt + 1) fuel (k + 1)
        (r.1, r.2.1, entry :: r.2.2)
      else
        (none, k + 1, [entry])

/-- `tryProvider`: run the loop from `attempt = 0` with
`maxAttempts = maxRetries + 1` iterations available. -/
def tryProvider (cfg : FallbackConfig) (exec : Nat → String → Except JsError α)
    (startTs lat : Nat → Int) (provider : String) (k : Nat) :
    Option α × Nat × List RetryAttempt :=
  tryProviderGo cfg exec startTs lat provider 0 (cfg.maxRetries + 1) k

/-- Provider loop of `executeWithFallback` (lines 67-99), accumulating the
attempt log and the call counter. -/
def fallbackGo (cfg : FallbackConfig) (exec : Nat → String → Except JsError α)
    (startTs lat : Nat → Int) :
    List String → Nat → List RetryAttempt → FbOutcome α × Nat
  | [], k, log => (.allFailed (mkAllProvidersFailedError log), k)
  | p :: rest, k, log =>
    match tryProvider cfg exec startTs lat p k with
    | (some v, k2, newEntries) =>
      let log2 := log ++ newEntries
      (.ok { result := v, attemptsUsed := log2.length,
             providersTriedCount := (log2.map (·.provider)).eraseDups.length,
             attempts := log2 }, k2)
    | (none, k2, newEntries) => fallbackGo cfg exec startTs lat rest k2 (log ++ newEntries)

/-- `providers.length > 0 ? providers : this.providers`. -/
def effectiveProviders (instanceProviders providers : List String) : List String :=
  if providers.length > 0 then providers else instanceProviders

/-- `executeWithFallback(providers, executeFn)`. -/
def executeWithFallback (cfg : FallbackConfig) (instanceProviders providers : List String)
    (exec : Nat → String → Except JsError α) (startTs lat : Nat → Int) :
    FbOutcome α × Nat :=
  fallbackGo cfg exec startTs lat (effectiveProviders instanceProviders providers) 0 []

/-! Latency tracker (src/metrics/latency-tracker.ts) -/

/-- A JS `number` as received by `recordLatency`: finite, `NaN` or an
infinity.  `Number.isFinite` is true exactly on the `fin` constructor. -/
inductive JsNum where
  | fin (q : ℚ)
  | nan
  | posInf
  | negInf
deriving DecidableEq

def JsNum.isFinite : JsNum → Bool
  | .fin _ => true
  | _ => false

/-- `Math.round(x)` (round half toward positive infinity). -/
def jsRound (x : ℚ) : ℚ := ((⌊x + 1/2⌋ : ℤ) : ℚ)

/-- `Math.round(x * 100) / 100`: rounding to two decimals. -/
def jsRound2 (x : ℚ) : ℚ := jsRound (x * 100) / 100

/-- Modelled from the spec: `calculateEma` lives in `src/metrics/aggregator.ts`,
which is not part of the provided sources; §4.2 of the spec defines the update
as `ema ← α·sample + (1−α)·ema`. -/
def calculateEma (prevEma sample alpha : ℚ) : ℚ :=
  alpha * sample + (1 - alpha) * prevEma

structure LatencyRecord where
  provider : String
  modelId : String
  ttfbMs : ℚ
  totalMs : ℚ
  timestamp : Int
  success : Bool
deriving DecidableEq

/-- Per-provider state (`ProviderLatencyState`). -/
structure ProviderLatencyState where
  samples : CircularBuffer ℚ
  ema : ℚ
  initialised : Bool
  records : CircularBuffer LatencyRecord
  lastUpdated : Int
deriving DecidableEq

/-- The tracker: a `Map` from provider name to state (insertion-ordered
association list) plus the constructor options. -/
structure LatencyTracker where
  state : List (String × ProviderLatencyState)
  windowSize : Nat
  alpha : ℚ
deriving DecidableEq

/-- `new LatencyTracker(opts)` with both options given (defaults 100, 0.3). -/
def LatencyTracker.mk0 (windowSize : Nat) (alpha : ℚ) : LatencyTracker :=
  { state := [], windowSize := windowSize, alpha := alpha }

/-- `Map.set`: replace the binding if the key is present, append otherwise. -/
def assocSet (k : String) (v : β) : List (String × β) → List (String × β)
  | [] => [(k, v)]
  | (k2, v2) :: rest => if k2 = k then (k, v) :: rest else (k2, v2) :: assocSet k v rest

/-- The fresh state built when a provider is seen for the first time. -/
def freshProviderState (windowSize : Nat) (now : Int) : ProviderLatencyState :=
  { samples := CircularBuffer.empty ℚ windowSize
    ema := 0
    initialised := false
    records := CircularBuffer.empty LatencyRecord windowSize
    lastUpdated := now }

/-- `recordLatency(provider, modelId, ttfbMs, totalMs, success)` (lines
119-189).  `Date.now()` is the parameter `now`.  Non-finite inputs are
rejected before any state is touched. -/
def LatencyTracker.recordLatency (tr : LatencyTracker) (provider modelId : String)
    (ttfbMs totalMs : JsNum) (success : Bool) (now : Int) : LatencyTracker :=
  match ttfbMs, totalMs with
  | .fin tt, .fin tot =>
    let record : LatencyRecord :=
      { provider := provider, modelId := modelId, ttfbMs := tt, totalMs := tot,
        timestamp := now, success := success }
    let ps := (tr.state.lookup provider).getD (freshProviderState tr.windowSize now)
    let ps := { ps with records := ps.records.push record, lastUpdated := now }
    let ps :=
      if success then
        { ps with
          samples := ps.samples.push tot
          ema := if ps.initialised then calculateEma ps.ema tot tr.alpha else tot
          initialised := true }
      else ps
    { tr with state := assocSet provider ps tr.state }
  | _, _ => tr

/-- The `emaMs` field of `getStats(provider)` (lines 199-226): zero when the
provider has no state or no successful samples, otherwise the EMA rounded to
two decimals.  (The percentile fields of `getStats` are not consumed by the
routing code and are not modelled.) -/
def LatencyTracker.getStatsEmaMs (tr : LatencyTracker) (provider : String) : ℚ :=
  match tr.state.lookup provider with
  | none => 0
  | some ps => if ps.samples.length = 0 then 0 else jsRound2 ps.ema

/-! Model selector (src/routing/model-selector.ts, selectProvider) -/

structure RankedProvider where
  provider : String
  modelId : String
  score : ℚ
deriving DecidableEq

structure ProviderState where
  id : String
  available : Bool
  rateLimitRemaining : ℚ
deriving DecidableEq

/-- Admissibility filter of `selectProvider` step 3. -/
def availableFilter (states : List ProviderState) (r : RankedProvider) : Bool :=
  match states.find? (fun s => s.id == r.provider) with
  | none => false
  | some s =>
    if !s.available then false
    else if s.rateLimitRemaining ≤ 0 then false
    else true

/-- The sort comparator of `selectProvider` step 4:
`if (a.score !== b.score) return b.score - a.score; return latA - latB` where
`latX = latencyTracker.getStats(x.provider)?.emaMs ?? Number.POSITIVE_INFINITY`.
`getStats` always returns a stats object (zero-valued when no data), so the
optional chain never yields `undefined` and the `?? POSITIVE_INFINITY` fallback
is dead code: a provider with no recorded data compares with `emaMs = 0`. -/
def selectorCmp (tr : LatencyTracker) (a b : RankedProvider) : ℚ :=
  if a.score ≠ b.score then b.score - a.score
  else tr.getStatsEmaMs a.provider - tr.getStatsEmaMs b.provider

/-- Stable insertion of `x` (arriving after every element of the list) under a
JS sort comparator: `x` goes before the first element `y` with `cmp x y < 0`. -/
def jsSortInsert (cmp : α → α → ℚ) (x : α) : List α → List α
  | [] => [x]
  | y :: ys => if cmp x y < 0 then x :: y :: ys else y :: jsSortInsert cmp x ys

/-- `Array.prototype.sort(cmp)`: modelled as the stable sort by `cmp`. -/
def jsSortBy (cmp : α → α → ℚ) (l : List α) : List α :=
  l.foldl (fun acc x => jsSortInsert cmp x acc) []

/-- `selectProvider` steps 3-6 (lines 74-98): filter by availability, throw
when empty, stable-sort by score (desc) with latency-EMA tiebreak (asc),
return the first element. -/
def selectProvider (tr : LatencyTracker) (states : List ProviderState)
    (ranked : List RankedProvider) : Except String RankedProvider :=
  let available := ranked.filter (availableFilter states)
  match jsSortBy (selectorCmp tr) available with
  | [] => .error "No providers available"
  | selected :: _ => .ok selected

/-! Timeout middleware (src/middleware/logging.ts, timeoutMiddleware) -/

/-- JS `Number.parseInt(s, 10)`: skip leading whitespace, optional sign,
longest digit prefix; `NaN` (here `none`) when no digits follow. -/
def parseIntJS (s : String) : Option Int :=
  let cs := s.toList.dropWhile (fun c => c = ' ' ∨ c = '\t' ∨ c = '\n' ∨ c = '\r')
  let signAndRest : Int × List Char :=
    match cs with
    | '-' :: t => (-1, t)
    | '+' :: t => (1, t)
    | _ => (1, cs)
  let ds := signAndRest.2.takeWhile Char.isDigit
  if ds.isEmpty then none
  else some (signAndRest.1 * (ds.foldl (fun acc c => acc * 10 + (c.toNat - 48)) 0 : Nat))

/-- Resolution of the `X-Timeout-Ms` header (lines 114-127 of the middleware):
`current` is the timeout resolved so far (per-provider override or default).
Returns the effective timeout and whether the invalid-header warning fired.
`if (headerTimeout)` is JS truthiness, so a present-but-empty header is
skipped silently. -/
def resolveHeaderTimeout (headerTimeout : Option String) (current : Int) : Int × Bool :=
  match headerTimeout with
  | none => (current, false)
  | some h =>
    if h = "" then (current, false)
    else
      match parseIntJS h with
      | some parsed => if 0 < parsed then (parsed, false) else (current, true)
      | none => (current, true)

/-! Pricing (src/config/pricing.ts) -/

inductive ProviderName where
  | openai
  | anthropic
  | google
deriving DecidableEq

structure ModelPricing where
  modelId : String
  provider : ProviderName
  inputPer1k : ℚ
  outputPer1k : ℚ
deriving DecidableEq

/-- `PRICING_TABLE`. -/
def PRICING_TABLE : List (String × ModelPricing) :=
  [("gpt-4o", ⟨"gpt-4o", .openai, 0.0025, 0.01⟩),
   ("gpt-4o-mini", ⟨"gpt-4o-mini", .openai, 0.00015, 0.0006⟩),
   ("gpt-3.5-turbo", ⟨"gpt-3.5-turbo", .openai, 0.0005, 0.0015⟩),
   ("claude-3.5-sonnet", ⟨"claude-3.5-sonnet", .anthropic, 0.003, 0.015⟩),
   ("claude-sonnet-4-20250514", ⟨"claude-sonnet-4-20250514", .anthropic, 0.003, 0.015⟩),
   ("claude-3-haiku", ⟨"claude-3-haiku", .anthropic, 0.00025, 0.00125⟩),
   ("claude-haiku-3-5", ⟨"claude-haiku-3-5", .anthropic, 0.0008, 0.004⟩),
   ("gemini-1.5-pro", ⟨"gemini-1.5-pro", .google, 0.00125, 0.005⟩),
   ("gemini-1.5-flash", ⟨"gemini-1.5-flash", .google, 0.000075, 0.0003⟩),
   ("gemini-2.0-flash", ⟨"gemini-2.0-flash", .google, 0.0001, 0.0004⟩),
   ("gemini-2.0-pro", ⟨"gemini-2.0-pro", .google, 0.00125, 0.005⟩)]

/-- `DEFAULT_PRICING`: conservative fallback for unknown model ids. -/
def DEFAULT_PRICING : ModelPricing :=
  { modelId := "unknown", provider := .openai, inputPer1k := 0.002, outputPer1k := 0.006 }

/-- `getModelPricing(modelId)` (lines 94-102 of the pricing module): exact
table match, else the default annotated with the requested id. -/
def getModelPricing (modelId : String) : ModelPricing :=
  match PRICING_TABLE.lookup modelId with
  | some pricing => pricing
  | none => { DEFAULT_PRICING with modelId := modelId }

/-! Cost tracker (cost-tracker module, `recordCost` / `getCostSummary`)

The per-model stats `{ requests, totalCost }` are JS heap objects: the tracker
holds one reference per model id in `byModel`, and the `{ ...byModel }` spread in `getCostSummary` copies only the id→reference map, not the objects.  The model
makes this explicit: `byModelCells` is the store (the index of a cell is its
reference) and `byModelRefs` the id→reference map.  The three `byProvider`
objects and the `recentRequests` array are copied field-by-field /
element-by-element by `getCostSummary`, and `CostRecord`s are never mutated
after creation, so those parts are modelled as plain values. -/

/-- `MAX_RECENT_REQUESTS`. -/
def MAX_RECENT_REQUESTS : Nat := 50

/-- `COST_ALERT_THRESHOLD_USD`. -/
def COST_ALERT_THRESHOLD_USD : ℚ := 10

structure CostRecord where
  provider : ProviderName
  modelId : String
  inputTokens : ℚ
  outputTokens : ℚ
  costUsd : ℚ
  timestamp : Int
deriving DecidableEq

structure ProviderCostStats where
  requests : Nat
  totalCost : ℚ
  inputTokens : ℚ
  outputTokens : ℚ
deriving DecidableEq

/-- The shared mutable per-model stats object `{ requests, totalCost }`. -/
structure ModelCostStats where
  requests : Nat
  totalCost : ℚ
deriving DecidableEq

structure CostState where
  recentRequests : List CostRecord
  totalCostUsd : ℚ
  totalInputTokens : ℚ
  totalOutputTokens : ℚ
  alertFired : Bool
  byProvider : ProviderName → ProviderCostStats
  byModelRefs : List (String × Nat)
  byModelCells : List ModelCostStats

/-- The module-level initial state. -/
def initialCostState : CostState :=
  { recentRequests := []
    totalCostUsd := 0
    totalInputTokens := 0
    totalOutputTokens := 0
    alertFired := false
    byProvider := fun _ => ⟨0, 0, 0, 0⟩
    byModelRefs := []
    byModelCells := [] }

/-- `recordCost(provider, modelId, inputTokens, outputTokens)` (cost tracker
lines 81-131).  `Date.now()` is the parameter `now`.  Returns the new state
and the returned `CostRecord`. -/
def recordCost (st : CostState) (provider : ProviderName) (modelId : String)
    (inputTokens outputTokens : ℚ) (now : Int) : CostState × CostRecord :=
  let pricing := getModelPricing modelId
  let inputCost := (inputTokens / 1000) * pricing.inputPer1k
  let outputCost := (outputTokens / 1000) * pricing.outputPer1k
  let costUsd := inputCost + outputCost
  let record : CostRecord :=
    { provider := provider, modelId := modelId, inputTokens := inputTokens,
      outputTokens := outputTokens, costUsd := costUsd, timestamp := now }
  let totalCostUsd := st.totalCostUsd + costUsd
  let byProvider := fun p =>
    if p = provider then
      let s := st.byProvider provider
      { s with requests := s.requests + 1, totalCost := s.totalCost + costUsd,
               inputTokens := s.inputTokens + inputTokens,
               outputTokens := s.outputTokens + outputTokens }
    else st.byProvider p
  -- `if (!byModel[modelId]) byModel[modelId] = { requests: 0, totalCost: 0 }`
  let (refs, cells, r) : List (String × Nat) × List ModelCostStats × Nat :=
    match st.byModelRefs.lookup modelId with
    | some r => (st.byModelRefs, st.byModelCells, r)
    | none => (st.byModelRefs ++ [(modelId, st.byModelCells.length)],
               st.byModelCells ++ [⟨0, 0⟩], st.byModelCells.length)
  -- `byModel[modelId].requests++; byModel[modelId].totalCost += costUsd`
  let cell := cells.getD r ⟨0, 0⟩
  let cells := cells.set r { cell with requests := cell.requests + 1,
                                       totalCost := cell.totalCost + costUsd }
  let recent := st.recentRequests ++ [record]
  let recent := if MAX_RECENT_REQUESTS < recent.length then recent.drop 1 else recent
  ({ recentRequests := recent
     totalCostUsd := totalCostUsd
     totalInputTokens := st.totalInputTokens + inputTokens
     totalOutputTokens := st.totalOutputTokens + outputTokens
     alertFired := st.alertFired || decide (COST_ALERT_THRESHOLD_USD ≤ totalCostUsd)
     byProvider := byProvider
     byModelRefs := refs
     byModelCells := cells }, record)

/-- `Math.round(x * 10000) / 10000`: four-decimal rounding in the summary. -/
def jsRound4 (x : ℚ) : ℚ := jsRound (x * 10000) / 10000

/-- The value returned by `getCostSummary()` (lines 134-147): totals and
`byProvider` are value copies, `recentRequests` is a fresh array of the
(immutable) records, but `byModel: { ...byModel }` copies only the
id→reference map. -/
structure CostSummary where
  totalCostUsd : ℚ
  totalInputTokens : ℚ
  totalOutputTokens : ℚ
  byProvider : ProviderName → ProviderCostStats
  byModelRefs : List (String × Nat)
  recentRequests : List CostRecord

def getCostSummary (st : CostState) : CostSummary :=
  { totalCostUsd := jsRound4 st.totalCostUsd
    totalInputTokens := st.totalInputTokens
    totalOutputTokens := st.totalOutputTokens
    byProvider := fun p => st.byProvider p
    byModelRefs := st.byModelRefs
    recentRequests := st.recentRequests }

/-- Reading a per-model entry reachable from a summary: follow the reference
stored in the summary into the current store of the tracker. -/
def summaryByModel (s : CostSummary) (cells : List ModelCostStats) (modelId : String) :
    Option ModelCostStats :=
  (s.byModelRefs.lookup modelId).map (fun r => cells.getD r ⟨0, 0⟩)

/-- One call of `recordCost` as pure data, for folding sequences of calls. -/
structure CostCall where
  provider : ProviderName
  modelId : String
  inputTokens : ℚ
  outputTokens : ℚ
  now : Int

/-- Fold a sequence of `recordCost` calls from a state, keeping the returned
records. -/
def applyCostCalls (st : CostState) : List CostCall → CostState × List CostRecord
  | [] => (st, [])
  | c :: rest =>
    let (st2, rec2) := recordCost st c.provider c.modelId c.inputTokens c.outputTokens c.now
    let (st3, recs) := applyCostCalls st2 rest
    (st3, rec2 :: recs)

/-- The cost charged for one call (as `recordCost` computes it). -/
def costOfCall (c : CostCall) : ℚ :=
  (c.inputTokens / 1000) * (getModelPricing c.modelId).inputPer1k +
    (c.outputTokens / 1000) * (getModelPricing c.modelId).outputPer1k

/-- The per-provider state update performed by `recordLatency` on finite
inputs, as a standalone function of the prior state (used to state the
equation lemma `recordLatency_fin_eq`, which holds by `rfl`). -/
def recordLatencyUpdate (old : ProviderLatencyState) (provider modelId : String)
    (tt tot : ℚ) (success : Bool) (now : Int) (alpha : ℚ) : ProviderLatencyState :=
  let mid : ProviderLatencyState :=
    { old with records := old.records.push ⟨provider, modelId, tt, tot, now, success⟩,
               lastUpdated := now }
  if success then
    { mid with samples := mid.samples.push tot,
               ema := if mid.initialised then calculateEma mid.ema tot alpha else tot,
               initialised := true }
  else mid

/-! Concrete evaluation inputs used in counterexample / code-bug theorems -/

/-- A tracker that has seen exactly one successful request on `"openai"`
(totalMs 100) and nothing on any other provider. -/
def emaCexTracker : LatencyTracker :=
  (LatencyTracker.mk0 100 (3/10)).recordLatency "openai" "gpt-4o"
    (.fin 50) (.fin 100) true 0

/-- Cost-tracker state after one `recordCost(openai, "gpt-4o", 1000, 1000)`. -/
def costCexState1 : CostState :=
  (recordCost initialCostState .openai "gpt-4o" 1000 1000 0).1

/-- ... and after a second `recordCost` on the same model. -/
def costCexState2 : CostState :=
  (recordCost costCexState1 .openai "gpt-4o" 0 0 1).1

/-- Well-formedness of the cost-tracker reference structure: every per-model
reference points into the store, references are pairwise distinct, and model
ids are registered at most once.  Every state reachable from
`initialCostState` satisfies it (`costWF_applyCostCalls`). -/
def CostWF (st : CostState) : Prop :=
  (∀ pr ∈ st.byModelRefs, pr.2 < st.byModelCells.length) ∧
  (st.byModelRefs.map Prod.snd).Nodup ∧
  (st.byModelRefs.map Prod.fst).Nodup

/-! Specification-side models used only in theorem statements -/

/-- Abstract effect of one ring-buffer push on the logical content. -/
def ringPush (c : Nat) (l : List T) (v : T) : List T :=
  if l.length < c then l ++ [v] else l.drop 1 ++ [v]

/-- Abstract effect of a sequence of pushes. -/
def ringModel (c : Nat) (l : List T) (xs : List T) : List T :=
  xs.foldl (ringPush c) l

/-- Ring-buffer representation invariant: `l` is the logical content of the
buffer `b` of capacity `c`, oldest element first. -/
structure BufRep (c : Nat) (b : CircularBuffer T) (l : List T) : Prop where
  cap : b.capacity = c
  buflen : b.buf.length = c
  head_lt : b.head < c
  count_eq : b.count = l.length
  len_le : l.length ≤ c
  slots : ∀ i, i < l.length →
    b.buf.getD ((b.head + c - l.length + i) % c) none = l[i]?

/-! Theorems -/

theorem mod_shift_ne {h d c : Nat} (hh : h < c) (hd0 : 0 < d) (hdc : d < c) :
    (h + d) % c ≠ h := by
  intro heq
  have hmod : (h + d) % c = h % c := by rw [heq, Nat.mod_eq_of_lt hh]
  have hdvd : c ∣ (h + d) - h := (Nat.modEq_iff_dvd' (Nat.le_add_right h d)).mp hmod.symm
  have : c ∣ d := by simpa using hdvd
  exact absurd (Nat.le_of_dvd hd0 this) (by omega)

theorem bufRep_empty (T : Type) {c : Nat} (hc : 0 < c) :
    BufRep c (CircularBuffer.empty T c) [] := by
  refine ⟨rfl, by simp [CircularBuffer.empty], hc, rfl, by simp, ?_⟩
  intro i hi
  simp at hi

theorem bufRep_toArray {c : Nat} {b : CircularBuffer T} {l : List T}
    (h : BufRep c b l) : b.toArray = l.map some := by
  apply List.ext_getElem
  · simp [CircularBuffer.toArray, h.count_eq]
  · intro j h1 h2
    simp only [CircularBuffer.toArray, List.getElem_map, List.getElem_range]
    have hj : j < l.length := by
      simpa [CircularBuffer.toArray, h.count_eq] using h1
    have := h.slots j hj
    rw [h.count_eq, h.cap]
    rw [this]
    exact (List.getElem?_eq_getElem hj)

theorem bufRep_push_lt {c : Nat} {b : CircularBuffer T} {l : List T}
    (h : BufRep c b l) (hlt : l.length < c) (v : T) :
    BufRep c (b.push v) (l ++ [v]) := by
  obtain ⟨hcap, hbuflen, hhead, hcount, hle, hslots⟩ := h
  have hc0 : 0 < c := Nat.lt_of_le_of_lt (Nat.zero_le _) hhead
  have hcountlt : b.count < b.capacity := by rw [hcap, hcount]; exact hlt
  refine ⟨by simp [CircularBuffer.push, hcap], by simp [CircularBuffer.push, hbuflen],
    ?_, ?_, by simp; omega, ?_⟩
  · simp only [CircularBuffer.push, hcap]
    exact Nat.mod_lt _ hc0
  · simp only [CircularBuffer.push]
    rw [if_pos hcountlt, hcount]
    simp
  · intro i hi
    simp only [List.length_append, List.length_cons, List.length_nil,
      Nat.add_zero, Nat.zero_add] at hi
    simp only [CircularBuffer.push, hcap, List.length_append, List.length_cons,
      List.length_nil, Nat.add_zero, Nat.zero_add]
    have hidx : ((b.head + 1) % c + c - (l.length + 1) + i) % c =
        (b.head + (c - l.length + i)) % c := by
      have e1 : (b.head + 1) % c + c - (l.length + 1) + i =
          (b.head + 1) % c + (c - (l.length + 1) + i) := by omega
      rw [e1, Nat.mod_add_mod]
      congr 1
      omega
    rw [hidx]
    rcases Nat.lt_or_ge i l.length with hiL | hiL
    · have hne : (b.head + (c - l.length + i)) % c ≠ b.head :=
        mod_shift_ne hhead (by omega) (by omega)
      have hold := hslots i hiL
      have e2 : b.head + c - l.length + i = b.head + (c - l.length + i) := by omega
      rw [e2] at hold
      rw [List.getD_eq_getElem?_getD, List.getElem?_set_ne (Ne.symm hne),
        ← List.getD_eq_getElem?_getD, hold, List.getElem?_append_left hiL]
    · have hiL2 : i = l.length := by omega
      subst hiL2
      have e3 : c - l.length + l.length = c := by omega
      rw [e3, Nat.add_mod_right, Nat.mod_eq_of_lt hhead]
      rw [List.getD_eq_getElem?_getD,
        List.getElem?_set_self (by rw [hbuflen]; exact hhead)]
      rw [List.getElem?_append_right (Nat.le_refl _)]
      simp

theorem bufRep_push_full {c : Nat} {b : CircularBuffer T} {l : List T}
    (h : BufRep c b l) (hfull : l.length = c) (v : T) :
    BufRep c (b.push v) (l.drop 1 ++ [v]) := by
  obtain ⟨hcap, hbuflen, hhead, hcount, hle, hslots⟩ := h
  have hc0 : 0 < c := Nat.lt_of_le_of_lt (Nat.zero_le _) hhead
  have hcountge : ¬ b.count < b.capacity := by rw [hcap, hcount, hfull]; omega
  have hlen2 : (l.drop 1 ++ [v]).length = c := by
    simp [List.length_drop, hfull]
    omega
  refine ⟨by simp [CircularBuffer.push, hcap], by simp [CircularBuffer.push, hbuflen],
    ?_, ?_, hlen2.le, ?_⟩
  · simp only [CircularBuffer.push, hcap]
    exact Nat.mod_lt _ hc0
  · simp only [CircularBuffer.push]
    rw [if_neg hcountge, hcount, hfull, hlen2]
  · intro i hi
    rw [hlen2] at hi
    simp only [CircularBuffer.push, hcap, hlen2]
    have hidx : ((b.head + 1) % c + c - c + i) % c = (b.head + (1 + i)) % c := by
      have e1 : (b.head + 1) % c + c - c + i = (b.head + 1) % c + i := by omega
      rw [e1, Nat.mod_add_mod]
      congr 1
      omega
    rw [hidx]
    rcases Nat.lt_or_ge i (c - 1) with hiL | hiL
    · have hne : (b.head + (1 + i)) % c ≠ b.head :=
        mod_shift_ne hhead (by omega) (by omega)
      have hold := hslots (1 + i) (by omega)
      have e2 : b.head + c - l.length + (1 + i) = b.head + (1 + i) := by
        rw [hfull]; omega
      rw [e2] at hold
      rw [List.getD_eq_getElem?_getD, List.getElem?_set_ne (Ne.symm hne),
        ← List.getD_eq_getElem?_getD, hold,
        List.getElem?_append_left (by simp [List.length_drop, hfull]; omega),
        List.getElem?_drop]
    · have hiL2 : i = c - 1 := by omega
      subst hiL2
      have e3 : b.head + (1 + (c - 1)) = b.head + c := by omega
      rw [e3, Nat.add_mod_right, Nat.mod_eq_of_lt hhead]
      rw [List.getD_eq_getElem?_getD,
        List.getElem?_set_self (by rw [hbuflen]; exact hhead)]
      rw [List.getElem?_append_right (by simp [List.length_drop, hfull])]
      simp [List.length_drop, hfull]

theorem bufRep_pushAll {c : Nat} {b : CircularBuffer T} {l : List T}
    (h : BufRep c b l) (xs : List T) :
    BufRep c (b.pushAll xs) (ringModel c l xs) := by
  induction xs generalizing b l with
  | nil => simpa [CircularBuffer.pushAll, ringModel] using h
  | cons x xs ih =>
    have step : BufRep c (b.push x) (ringPush c l x) := by
      by_cases hlt : l.length < c
      · simpa [ringPush, hlt] using bufRep_push_lt h hlt x
      · have hfull : l.length = c := Nat.le_antisymm h.len_le (Nat.le_of_not_lt hlt)
        simpa [ringPush, hlt] using bufRep_push_full h hfull x
    simpa [CircularBuffer.pushAll, ringModel] using ih step

theorem ringModel_eq_drop {c : Nat} (hc : 0 < c) :
    ∀ (xs l : List T), l.length ≤ c →
      ringModel c l xs = (l ++ xs).drop ((l ++ xs).length - c) := by
  intro xs
  induction xs with
  | nil =>
    intro l hl
    simp only [ringModel, List.foldl_nil, List.append_nil]
    rw [Nat.sub_eq_zero_of_le hl, List.drop_zero]
  | cons x xs ih =>
    intro l hl
    have hstep : ringModel c l (x :: xs) = ringModel c (ringPush c l x) xs := by
      simp [ringModel]
    rw [hstep]
    by_cases hlt : l.length < c
    · rw [show ringPush c l x = l ++ [x] from by simp [ringPush, hlt]]
      rw [ih (l ++ [x]) (by simp; omega)]
      simp
    · have hfull : l.length = c := Nat.le_antisymm hl (Nat.le_of_not_lt hlt)
      rw [show ringPush c l x = l.drop 1 ++ [x] from by simp [ringPush, hlt]]
      rw [ih (l.drop 1 ++ [x]) (by simp [List.length_drop, hfull]; omega)]
      have e1 : (l.drop 1 ++ [x]) ++ xs = (l ++ x :: xs).drop 1 := by
        rw [List.drop_append_of_le_length (by omega)]
        simp
      rw [e1, List.drop_drop]
      congr 1
      simp [List.length_drop, hfull]
      omega

/-- Claim C10: for every capacity `c ≥ 1` and every finite push sequence `xs`,
the buffer `length` is `min xs.length c` and `toArray` returns exactly the
last `min xs.length c` pushed values in push order (each slot read back as
`some v`, the model of the source `as T` cast of a filled slot). -/
theorem circularBuffer_spec (T : Type) (c : Nat) (hc : 1 ≤ c) (xs : List T) :
    ((CircularBuffer.empty T c).pushAll xs).length = min xs.length c ∧
      ((CircularBuffer.empty T c).pushAll xs).toArray =
        (xs.drop (xs.length - c)).map some := by
  have hrep := bufRep_pushAll (bufRep_empty T hc) xs
  rw [ringModel_eq_drop hc xs [] (by simp)] at hrep
  simp only [List.nil_append, List.length_nil] at hrep
  constructor
  · have := hrep.count_eq
    simp only [CircularBuffer.length]
    rw [this, List.length_drop]
    omega
  · exact bufRep_toArray hrep

/-- Witness for C10 at capacity 2 with pushes `[1,2,3]`. -/
theorem circularBuffer_spec_witness :
    ((CircularBuffer.empty ℕ 2).pushAll [1, 2, 3]).length = min ([1,2,3] : List ℕ).length 2 ∧
      ((CircularBuffer.empty ℕ 2).pushAll [1, 2, 3]).toArray =
        (([1,2,3] : List ℕ).drop (([1,2,3] : List ℕ).length - 2)).map some :=
  circularBuffer_spec ℕ 2 (by decide) [1, 2, 3]

theorem calculateBackoff_eq (attempt : Nat) (baseMs rand : ℚ) :
    calculateBackoff attempt baseMs rand =
      ((⌊rand * min (baseMs * 2 ^ attempt) 10000⌋ : ℤ) : ℚ) := rfl

/-- Claim C3: `isRetryableError` returns `true` iff the error is an upstream
`APICallError` with status `429` or `≥ 500`, or an `APICallError` with no
status code (network-level failure), or a plain `Error` whose message contains
one of the known transient phrases; and every status in `400..499` other than
`429` is non-retryable. -/
theorem isRetryableError_characterisation :
    (∀ e : JsError, isRetryableError e = true ↔
      ((∃ s msg, e = .apiCallError (some s) msg ∧ (s = 429 ∨ 500 ≤ s)) ∨
       (∃ msg, e = .apiCallError none msg) ∨
       (∃ msg, e = .genericError msg ∧ containsTransientPhrase msg = true))) ∧
    (∀ (s : Int) (msg : String), 400 ≤ s → s ≤ 499 → s ≠ 429 →
      isRetryableError (.apiCallError (some s) msg) = false) := by
  constructor
  · intro e
    cases e with
    | apiCallError st m =>
      cases st with
      | none => simp [isRetryableError]
      | some s => simp [isRetryableError]
    | genericError m =>
      simp [isRetryableError, containsTransientPhrase, TRANSIENT_PHRASES]
      tauto
    | nonError t => simp [isRetryableError]
  · intro s msg h1 h2 h3
    simp only [isRetryableError]
    rw [Bool.or_eq_false_iff]
    constructor
    · simpa using h3
    · simp only [decide_eq_false_iff_not]
      omega

/-- Witness for C3: status 404 with a transient-looking message is still
non-retryable because the `APICallError` branch returns first. -/
theorem isRetryableError_characterisation_witness :
    isRetryableError (.apiCallError (some 404) "connection timeout") = false :=
  isRetryableError_characterisation.2 404 "connection timeout"
    (by norm_num) (by norm_num) (by norm_num)

/-- Claim C4: for every attempt, every positive `baseMs` and every value of the
`Math.random()` draw in `[0,1)`, `calculateBackoff` lands in
`[0, min(10000, baseMs·2^attempt))`. -/
theorem calculateBackoff_range (attempt : Nat) (baseMs rand : ℚ)
    (hb : 0 < baseMs) (hr0 : 0 ≤ rand) (hr1 : rand < 1) :
    0 ≤ calculateBackoff attempt baseMs rand ∧
      calculateBackoff attempt baseMs rand < min 10000 (baseMs * 2 ^ attempt) := by
  have hcap : (0 : ℚ) < min (baseMs * 2 ^ attempt) 10000 :=
    lt_min (by positivity) (by norm_num)
  rw [calculateBackoff_eq]
  constructor
  · have h0 : (0 : ℤ) ≤ ⌊rand * min (baseMs * 2 ^ attempt) 10000⌋ :=
      Int.floor_nonneg.mpr (mul_nonneg hr0 hcap.le)
    exact_mod_cast h0
  · have h1 : ((⌊rand * min (baseMs * 2 ^ attempt) 10000⌋ : ℤ) : ℚ) ≤
        rand * min (baseMs * 2 ^ attempt) 10000 := Int.floor_le _
    have h2 : rand * min (baseMs * 2 ^ attempt) 10000 <
        min (baseMs * 2 ^ attempt) 10000 := by
      have := mul_lt_mul_of_pos_right hr1 hcap
      simpa using this
    rw [min_comm 10000 (baseMs * 2 ^ attempt)]
    exact lt_of_le_of_lt h1 h2

/-- Witness for C4 at `attempt = 3`, `baseMs = 500`, `rand = 1/2`. -/
theorem calculateBackoff_range_witness :
    0 ≤ calculateBackoff 3 500 (1/2) ∧
      calculateBackoff 3 500 (1/2) < min 10000 (500 * 2 ^ 3) :=
  calculateBackoff_range 3 500 (1/2) (by norm_num) (by norm_num) (by norm_num)

/-- Claim C6 (code bug): the timeout middleware applies any positive `X-Timeout-Ms` value
unchanged — there is no `MAX_ALLOWED_TIMEOUT_MS` clamp anywhere in the code:
with default 30000 the header `999999999` yields an effective timeout of
999999999 rather than the clamp bound of the spec (e.g. 120000).  The
invalid-value cases behave as claimed: `0`, negative and non-numeric header
values are ignored with a warning and the previously resolved default
applies. -/
theorem resolveHeaderTimeout_no_clamp :
    resolveHeaderTimeout (some "999999999") 30000 = (999999999, false) ∧
    ¬((999999999 : Int) ≤ 120000) ∧
    resolveHeaderTimeout (some "0") 30000 = (30000, true) ∧
    resolveHeaderTimeout (some "-5") 30000 = (30000, true) ∧
    resolveHeaderTimeout (some "abc") 30000 = (30000, true) ∧
    resolveHeaderTimeout none 30000 = (30000, false) := by
  refine ⟨by decide, by decide, by decide, by decide, by decide, by decide⟩

section FallbackLemmas

variable {α : Type} (cfg : FallbackConfig) (exec : Nat → String → Except JsError α)
variable (ts lt : Nat → Int) (p : String)

theorem tryProviderGo_calls :
    ∀ (f a k : Nat),
      (tryProviderGo cfg exec ts lt p a f k).2.1 =
        k + (tryProviderGo cfg exec ts lt p a f k).2.2.length := by
  intro f
  induction f with
  | zero => intro a k; simp [tryProviderGo]
  | succ f ih =>
    intro a k
    simp only [tryProviderGo]
    cases hexec : exec k p with
    | ok v => simp
    | error err =>
      by_cases hr : isRetryableError err ∧ a < cfg.maxRetries
      · simp only [if_pos hr, List.length_cons]
        rw [ih (a + 1) (k + 1)]
        omega
      · simp [if_neg hr]

theorem tryProviderGo_len_le :
    ∀ (f a k : Nat), (tryProviderGo cfg exec ts lt p a f k).2.2.length ≤ f := by
  intro f
  induction f with
  | zero => intro a k; simp [tryProviderGo]
  | succ f ih =>
    intro a k
    simp only [tryProviderGo]
    cases hexec : exec k p with
    | ok v => simp
    | error err =>
      by_cases hr : isRetryableError err ∧ a < cfg.maxRetries
      · simp only [if_pos hr, List.length_cons]
        have := ih (a + 1) (k + 1)
        omega
      · simp [if_neg hr]

theorem tryProviderGo_provider :
    ∀ (f a k : Nat), ∀ e ∈ (tryProviderGo cfg exec ts lt p a f k).2.2,
      e.provider = p := by
  intro f
  induction f with
  | zero => intro a k; simp [tryProviderGo]
  | succ f ih =>
    intro a k
    simp only [tryProviderGo]
    cases hexec : exec k p with
    | ok v => simp
    | error err =>
      by_cases hr : isRetryableError err ∧ a < cfg.maxRetries
      · simp only [if_pos hr, List.mem_cons]
        rintro e (rfl | he)
        · rfl
        · exact ih (a + 1) (k + 1) e he
      · simp [if_neg hr]

theorem tryProviderGo_none_errors :
    ∀ (f a k : Nat), (tryProviderGo cfg exec ts lt p a f k).1 = none →
      ∀ e ∈ (tryProviderGo cfg exec ts lt p a f k).2.2, e.error.isSome := by
  intro f
  induction f with
  | zero => intro a k _; simp [tryProviderGo]
  | succ f ih =>
    intro a k
    simp only [tryProviderGo]
    cases hexec : exec k p with
    | ok v => simp
    | error err =>
      by_cases hr : isRetryableError err ∧ a < cfg.maxRetries
      · simp only [if_pos hr, List.mem_cons]
        intro hnone e he
        rcases he with rfl | he
        · simp
        · exact ih (a + 1) (k + 1) hnone e he
      · simp [if_neg hr]

theorem tryProviderGo_some_errors :
    ∀ (f a k : Nat) (v : α), (tryProviderGo cfg exec ts lt p a f k).1 = some v →
      ∃ pre last, (tryProviderGo cfg exec ts lt p a f k).2.2 = pre ++ [last] ∧
        last.error = none ∧ ∀ e ∈ pre, e.error.isSome := by
  intro f
  induction f with
  | zero => intro a k v h; simp [tryProviderGo] at h
  | succ f ih =>
    intro a k v
    simp only [tryProviderGo]
    cases hexec : exec k p with
    | ok w =>
      dsimp only
      intro h
      exact ⟨[], _, rfl, rfl, by simp⟩
    | error err =>
      by_cases hr : isRetryableError err ∧ a < cfg.maxRetries
      · simp only [if_pos hr]
        intro h
        obtain ⟨pre, last, heq, hlast, hpre⟩ := ih (a + 1) (k + 1) v h
        refine ⟨RetryAttempt.mk p (some (toLoggedError err)) (lt k) (ts k) :: pre,
          last, by rw [heq]; rfl, hlast, ?_⟩
        intro e he
        rcases List.mem_cons.mp he with rfl | he
        · simp
        · exact hpre e he
      · simp [if_neg hr]

theorem tryProviderGo_all_fail
    (hall : ∀ j, ∃ err, exec j p = .error err ∧ isRetryableError err = true) :
    ∀ (f a k : Nat), a + f = cfg.maxRetries + 1 →
      (tryProviderGo cfg exec ts lt p a f k).1 = none ∧
        (tryProviderGo cfg exec ts lt p a f k).2.2.length = f := by
  intro f
  induction f with
  | zero => intro a k _; simp [tryProviderGo]
  | succ f ih =>
    intro a k hf
    obtain ⟨err, hE, hR⟩ := hall k
    simp only [tryProviderGo, hE]
    by_cases hlt : a < cfg.maxRetries
    · have hr : isRetryableError err ∧ a < cfg.maxRetries := ⟨hR, hlt⟩
      simp only [if_pos hr, List.length_cons]
      have := ih (a + 1) (k + 1) (by omega)
      exact ⟨this.1, by omega⟩
    · have hf0 : f = 0 := by omega
      subst hf0
      have hr : ¬(isRetryableError err ∧ a < cfg.maxRetries) := by
        intro hcon
        exact hlt hcon.2
      simp [if_neg hr]

theorem tryProviderGo_never_ok
    (hall : ∀ j, ∃ err, exec j p = .error err) :
    ∀ (f a k : Nat), (tryProviderGo cfg exec ts lt p a f k).1 = none := by
  intro f
  induction f with
  | zero => intro a k; simp [tryProviderGo]
  | succ f ih =>
    intro a k
    obtain ⟨err, hE⟩ := hall k
    simp only [tryProviderGo, hE]
    by_cases hr : isRetryableError err ∧ a < cfg.maxRetries
    · simp only [if_pos hr]
      exact ih (a + 1) (k + 1)
    · simp [if_neg hr]

theorem fallbackGo_calls :
    ∀ (ps : List String) (k : Nat) (log : List RetryAttempt),
      (fallbackGo cfg exec ts lt ps k log).2 + log.length =
        k + ((fallbackGo cfg exec ts lt ps k log).1.attemptsOf).length := by
  intro ps
  induction ps with
  | nil =>
    intro k log
    simp [fallbackGo, FbOutcome.attemptsOf, mkAllProvidersFailedError]
  | cons p rest ih =>
    intro k log
    simp only [fallbackGo]
    have hcalls := tryProviderGo_calls cfg exec ts lt p (cfg.maxRetries + 1) 0 k
    cases hres : tryProvider cfg exec ts lt p k with
    | mk res rest2 =>
      cases res with
      | some v =>
        simp only [FbOutcome.attemptsOf]
        rw [tryProvider] at hres
        rw [hres] at hcalls
        simp at hcalls
        simp [List.length_append]
        omega
      | none =>
        obtain ⟨k2, newE⟩ := rest2
        rw [tryProvider] at hres
        rw [hres] at hcalls
        simp at hcalls
        have := ih k2 (log ++ newE)
        simp [List.length_append] at this
        simp
        omega
theorem fallbackGo_provider_count :
    ∀ (ps : List String) (k : Nat) (log : List RetryAttempt) (q : String),
      ((fallbackGo cfg exec ts lt ps k log).1.attemptsOf.countP
          (fun e => e.provider == q)) ≤
        log.countP (fun e => e.provider == q) +
          ps.count q * (cfg.maxRetries + 1) := by
  intro ps
  induction ps with
  | nil =>
    intro k log q
    simp [fallbackGo, FbOutcome.attemptsOf, mkAllProvidersFailedError]
  | cons p rest ih =>
    intro k log q
    simp only [fallbackGo]
    cases hres : tryProvider cfg exec ts lt p k with
    | mk res rest2 =>
      obtain ⟨k2, newE⟩ := rest2
      have hprov : ∀ e ∈ newE, e.provider = p := by
        have h := tryProviderGo_provider cfg exec ts lt p (cfg.maxRetries + 1) 0 k
        rw [tryProvider] at hres
        rw [hres] at h
        simpa using h
      have hlen : newE.length ≤ cfg.maxRetries + 1 := by
        have h := tryProviderGo_len_le cfg exec ts lt p (cfg.maxRetries + 1) 0 k
        rw [tryProvider] at hres
        rw [hres] at h
        simpa using h
      by_cases hpq : p = q
      · subst hpq
        have hcnt : newE.countP (fun e => e.provider == p) ≤ cfg.maxRetries + 1 :=
          le_trans (List.countP_le_length _) hlen
        have hc : (p :: rest).count p * (cfg.maxRetries + 1) =
            rest.count p * (cfg.maxRetries + 1) + (cfg.maxRetries + 1) := by
          rw [List.count_cons_self, Nat.add_mul, Nat.one_mul]
        cases res with
        | some v =>
          simp only [FbOutcome.attemptsOf, List.countP_append]
          rw [hc]
          omega
        | none =>
          have hrec := ih k2 (log ++ newE) p
          simp only [List.countP_append] at hrec
          dsimp only
          rw [hc]
          omega
      · have hcnt : newE.countP (fun e => e.provider == q) = 0 := by
          rw [List.countP_eq_zero]
          intro e he
          simp [hprov e he, hpq]
        have hc : (p :: rest).count q = rest.count q := by
          simp [List.count_cons, Ne.symm hpq]
        cases res with
        | some v =>
          simp only [FbOutcome.attemptsOf, List.countP_append]
          rw [hc]
          omega
        | none =>
          have hrec := ih k2 (log ++ newE) q
          simp only [List.countP_append] at hrec
          dsimp only
          rw [hc]
          omega

theorem fallbackGo_error_structure :
    ∀ (ps : List String) (k : Nat) (log : List RetryAttempt),
      (∀ e ∈ log, e.error.isSome) →
      (∀ errObj, (fallbackGo cfg exec ts lt ps k log).1 = .allFailed errObj →
        ∀ e ∈ errObj.attempts, e.error.isSome) ∧
      (∀ r, (fallbackGo cfg exec ts lt ps k log).1 = .ok r →
        ∃ pre last, r.attempts = pre ++ [last] ∧ last.error = none ∧
          ∀ e ∈ pre, e.error.isSome) := by
  intro ps
  induction ps with
  | nil =>
    intro k log hlog
    constructor
    · intro errObj herr
      simp only [fallbackGo] at herr
      cases herr
      simpa [mkAllProvidersFailedError] using hlog
    · intro r hr
      simp [fallbackGo] at hr
  | cons p rest ih =>
    intro k log hlog
    simp only [fallbackGo]
    cases hres : tryProvider cfg exec ts lt p k with
    | mk res rest2 =>
      obtain ⟨k2, newE⟩ := rest2
      cases res with
      | some v =>
        dsimp only
        constructor
        · intro errObj herr
          cases herr
        · intro r hr
          cases hr
          have hsome : (tryProviderGo cfg exec ts lt p 0 (cfg.maxRetries + 1) k).1 = some v := by
            rw [tryProvider] at hres
            rw [hres]
          obtain ⟨pre, last, heq, hlast, hpre⟩ :=
            tryProviderGo_some_errors cfg exec ts lt p (cfg.maxRetries + 1) 0 k v hsome
          have heq2 : newE = pre ++ [last] := by
            rw [tryProvider] at hres
            rw [hres] at heq
            exact heq
          refine ⟨log ++ pre, last, ?_, hlast, ?_⟩
          · simp [heq2]
          · intro e he
            rcases List.mem_append.mp he with he | he
            · exact hlog e he
            · exact hpre e he
      | none =>
        dsimp only
        have hnone : (tryProviderGo cfg exec ts lt p 0 (cfg.maxRetries + 1) k).1 = none := by
          rw [tryProvider] at hres
          rw [hres]
        have hne : ∀ e ∈ newE, e.error.isSome := by
          have h := tryProviderGo_none_errors cfg exec ts lt p (cfg.maxRetries + 1) 0 k hnone
          rw [tryProvider] at hres
          rw [hres] at h
          simpa using h
        exact ih k2 (log ++ newE) (by
          intro e he
          rcases List.mem_append.mp he with he | he
          · exact hlog e he
          · exact hne e he)

theorem fallbackGo_exhaust
    (hall : ∀ j q, ∃ err, exec j q = .error err ∧ isRetryableError err = true) :
    ∀ (ps : List String) (k : Nat) (log : List RetryAttempt),
      ∃ errObj, (fallbackGo cfg exec ts lt ps k log).1 = .allFailed errObj ∧
        errObj.statusCode = 503 ∧
        errObj.attempts.length = log.length + ps.length * (cfg.maxRetries + 1) := by
  intro ps
  induction ps with
  | nil =>
    intro k log
    exact ⟨mkAllProvidersFailedError log, rfl, rfl, by simp [mkAllProvidersFailedError]⟩
  | cons p rest ih =>
    intro k log
    simp only [fallbackGo]
    have hp := tryProviderGo_all_fail cfg exec ts lt p
      (fun j => hall j p) (cfg.maxRetries + 1) 0 k (by omega)
    cases hres : tryProvider cfg exec ts lt p k with
    | mk res rest2 =>
      obtain ⟨k2, newE⟩ := rest2
      rw [tryProvider] at hres
      rw [hres] at hp
      obtain ⟨hp1, hp2⟩ := hp
      simp only at hp1 hp2
      subst hp1
      dsimp only
      obtain ⟨errObj, h1, h2, h3⟩ := ih k2 (log ++ newE)
      refine ⟨errObj, h1, h2, ?_⟩
      rw [h3, List.length_append, hp2, List.length_cons, Nat.succ_mul]
      generalize rest.length * (cfg.maxRetries + 1) = R
      omega

theorem fallbackGo_all_error
    (hfail : ∀ j q, ∃ err, exec j q = .error err) :
    ∀ (ps : List String) (k : Nat) (log : List RetryAttempt),
      ∃ errObj, (fallbackGo cfg exec ts lt ps k log).1 = .allFailed errObj ∧
        errObj.statusCode = 503 := by
  intro ps
  induction ps with
  | nil =>
    intro k log
    exact ⟨mkAllProvidersFailedError log, rfl, rfl⟩
  | cons p rest ih =>
    intro k log
    simp only [fallbackGo]
    have hz := tryProviderGo_never_ok cfg exec ts lt p (fun j => hfail j p)
      (cfg.maxRetries + 1) 0 k
    cases hres : tryProvider cfg exec ts lt p k with
    | mk res rest2 =>
      obtain ⟨k2, newE⟩ := rest2
      rw [tryProvider] at hres
      rw [hres] at hz
      simp only at hz
      subst hz
      dsimp only
      exact ih k2 (log ++ newE)

theorem executeWithFallback_eq (ip ps : List String) :
    executeWithFallback cfg ip ps exec ts lt =
      fallbackGo cfg exec ts lt (effectiveProviders ip ps) 0 [] := rfl

end FallbackLemmas

/-- Claim C1 (amended): for every configuration, executor and time oracles, and
every ordered provider list **without duplicate entries**: each executor call
produces exactly one entry in the attempt log (the log length equals the
number of calls); every single provider receives at most `maxRetries + 1`
attempts; at most one attempt has `error = null`; when a result is returned
the `error = null` attempt exists and is the last log entry, and when
`AllProvidersFailedError` is thrown every logged attempt carries an error.
(The original claim, quantified over arbitrary provider lists, fails when the
list repeats a provider — see the counterexample.) -/
theorem executeWithFallback_attempt_log_invariants (α : Type) (cfg : FallbackConfig)
    (ip ps : List String) (exec : Nat → String → Except JsError α) (ts lt : Nat → Int)
    (hnd : (effectiveProviders ip ps).Nodup) :
    ((executeWithFallback cfg ip ps exec ts lt).1.attemptsOf).length =
      (executeWithFallback cfg ip ps exec ts lt).2 ∧
    (∀ q, ((executeWithFallback cfg ip ps exec ts lt).1.attemptsOf).countP
        (fun e => e.provider == q) ≤ cfg.maxRetries + 1) ∧
    ((executeWithFallback cfg ip ps exec ts lt).1.attemptsOf).countP
        (fun e => e.error.isNone) ≤ 1 ∧
    (∀ r, (executeWithFallback cfg ip ps exec ts lt).1 = .ok r →
      ∃ pre last, r.attempts = pre ++ [last] ∧ last.error = none ∧
        ∀ e ∈ pre, e.error.isSome) ∧
    (∀ errObj, (executeWithFallback cfg ip ps exec ts lt).1 = .allFailed errObj →
      ∀ e ∈ errObj.attempts, e.error.isSome) := by
  have hstruct := fallbackGo_error_structure cfg exec ts lt (effectiveProviders ip ps) 0 []
    (by intro e he; simp at he)
  rw [executeWithFallback_eq]
  refine ⟨?_, ?_, ?_, ?_, ?_⟩
  · have hcalls := fallbackGo_calls cfg exec ts lt (effectiveProviders ip ps) 0 []
    simpa using hcalls.symm
  · intro q
    have hcount := fallbackGo_provider_count cfg exec ts lt (effectiveProviders ip ps) 0 [] q
    have hone : (effectiveProviders ip ps).count q ≤ 1 :=
      List.nodup_iff_count_le_one.mp hnd q
    have h2 : (effectiveProviders ip ps).count q * (cfg.maxRetries + 1) ≤
        cfg.maxRetries + 1 := by
      calc (effectiveProviders ip ps).count q * (cfg.maxRetries + 1)
          ≤ 1 * (cfg.maxRetries + 1) := Nat.mul_le_mul_right _ hone
        _ = cfg.maxRetries + 1 := Nat.one_mul _
    exact le_trans (by simpa using hcount) h2
  · cases hout : (fallbackGo cfg exec ts lt (effectiveProviders ip ps) 0 []).1 with
    | ok r =>
      obtain ⟨pre, last, heq, hlast, hpre⟩ := hstruct.2 r hout
      have h0 : pre.countP (fun e => e.error.isNone) = 0 := by
        rw [List.countP_eq_zero]
        intro e he
        have h := hpre e he
        cases herr2 : e.error with
        | none => rw [herr2] at h; simp at h
        | some x => simp [herr2]
      simp [hout, FbOutcome.attemptsOf, heq, List.countP_append, h0, hlast]
    | allFailed errObj =>
      have hall := hstruct.1 errObj hout
      have h0 : errObj.attempts.countP (fun e => e.error.isNone) = 0 := by
        rw [List.countP_eq_zero]
        intro e he
        have h := hall e he
        cases herr2 : e.error with
        | none => rw [herr2] at h; simp at h
        | some x => simp [herr2]
      simp [hout, FbOutcome.attemptsOf, h0]
  · intro r hr
    exact hstruct.2 r hr
  · intro errObj herr
    exact hstruct.1 errObj herr

/-- Witness for C1 (amended) on the duplicate-free list `["a", "b"]` with an
immediately succeeding executor. -/
theorem executeWithFallback_attempt_log_invariants_witness :
    ((executeWithFallback (⟨2, 500⟩ : FallbackConfig) [] ["a", "b"]
        (fun _ _ => Except.ok (0 : Nat)) (fun _ => 0) (fun _ => 0)).1.attemptsOf).length =
      (executeWithFallback (⟨2, 500⟩ : FallbackConfig) [] ["a", "b"]
        (fun _ _ => Except.ok (0 : Nat)) (fun _ => 0) (fun _ => 0)).2 :=
  (executeWithFallback_attempt_log_invariants Nat ⟨2, 500⟩ [] ["a", "b"]
    (fun _ _ => Except.ok 0) (fun _ => 0) (fun _ => 0) (by decide)).1

/-- Counterexample to C1 as stated: with `maxRetries = 1` and the duplicated
provider list `["p", "p"]`, a permanently failing retryable executor yields
4 logged attempts for provider `"p"`, exceeding `maxRetries + 1 = 2`. -/
theorem executeWithFallback_dup_provider_counterexample :
    ((executeWithFallback (α := Unit) ⟨1, 500⟩ [] ["p", "p"]
        (fun _ _ => .error (.genericError "timeout")) (fun _ => 0)
        (fun _ => 0)).1.attemptsOf).countP (fun e => e.provider == "p") = 4 ∧
      ¬(4 ≤ 1 + 1) := by
  constructor
  · decide
  · decide

/-- Claim C2: when the executor throws on every call — whatever mix of
retryable and non-retryable errors — `executeWithFallback` throws
`AllProvidersFailedError` with `statusCode = 503` whose `attempts` field is
the complete attempt log (one entry per executor call); when additionally
every thrown error is retryable, the log length equals
`providers.length · (maxRetries + 1)`. -/
theorem executeWithFallback_all_providers_fail (α : Type) (cfg : FallbackConfig)
    (ip ps : List String) (exec : Nat → String → Except JsError α) (ts lt : Nat → Int)
    (hfail : ∀ k q, ∃ err, exec k q = .error err) :
    ∃ errObj, (executeWithFallback cfg ip ps exec ts lt).1 = .allFailed errObj ∧
      errObj.statusCode = 503 ∧
      errObj.attempts.length = (executeWithFallback cfg ip ps exec ts lt).2 ∧
      ((∀ k q err, exec k q = .error err → isRetryableError err = true) →
        errObj.attempts.length =
          (effectiveProviders ip ps).length * (cfg.maxRetries + 1)) := by
  obtain ⟨errObj, h1, h2⟩ :=
    fallbackGo_all_error cfg exec ts lt hfail (effectiveProviders ip ps) 0 []
  have hcalls := fallbackGo_calls cfg exec ts lt (effectiveProviders ip ps) 0 []
  rw [executeWithFallback_eq]
  refine ⟨errObj, h1, h2, ?_, ?_⟩
  · rw [h1] at hcalls
    simp only [FbOutcome.attemptsOf] at hcalls
    simpa using hcalls.symm
  · intro hret
    obtain ⟨errObj2, h1b, _, h3b⟩ :=
      fallbackGo_exhaust cfg exec ts lt
        (fun j q => by
          obtain ⟨err, he⟩ := hfail j q
          exact ⟨err, he, hret j q err he⟩)
        (effectiveProviders ip ps) 0 []
    rw [h1] at h1b
    injection h1b with heq
    rw [← heq] at h3b
    simpa using h3b

/-- Witness for C2: two providers, `maxRetries = 1`, every call failing with
HTTP 500 — `AllProvidersFailedError` with status 503 and the complete
four-entry log. -/
theorem executeWithFallback_all_providers_fail_witness :
    ∃ errObj, (executeWithFallback (α := Unit) ⟨1, 500⟩ [] ["a", "b"]
        (fun _ _ => .error (.apiCallError (some 500) "server error")) (fun _ => 0)
        (fun _ => 0)).1 = .allFailed errObj ∧
      errObj.statusCode = 503 ∧
      errObj.attempts.length = (executeWithFallback (α := Unit) ⟨1, 500⟩ [] ["a", "b"]
        (fun _ _ => .error (.apiCallError (some 500) "server error")) (fun _ => 0)
        (fun _ => 0)).2 ∧
      errObj.attempts.length = 4 := by
  obtain ⟨errObj, h1, h2, h3, h4⟩ :=
    executeWithFallback_all_providers_fail Unit ⟨1, 500⟩ [] ["a", "b"]
      (fun _ _ => .error (.apiCallError (some 500) "server error")) (fun _ => 0)
      (fun _ => 0)
      (fun _ _ => ⟨.apiCallError (some 500) "server error", rfl⟩)
  have h5 := h4 (fun k q err he => by cases he; decide)
  refine ⟨errObj, h1, h2, h3, ?_⟩
  simpa [effectiveProviders] using h5

theorem assocSet_lookup_self (k : String) (v : β) :
    ∀ l : List (String × β), (assocSet k v l).lookup k = some v := by
  intro l
  induction l with
  | nil => simp [assocSet, List.lookup]
  | cons kv rest ih =>
    obtain ⟨k2, v2⟩ := kv
    by_cases hk : k2 = k
    · simp [assocSet, hk, List.lookup]
    · simp only [assocSet, if_neg hk, List.lookup]
      have : (k == k2) = false := by
        simp [beq_eq_false_iff_ne]
        exact fun h => hk h.symm
      rw [this]
      exact ih

theorem assocSet_lookup_ne (k q : String) (v : β) (hq : q ≠ k) :
    ∀ l : List (String × β), (assocSet k v l).lookup q = l.lookup q := by
  intro l
  induction l with
  | nil =>
    simp only [assocSet, List.lookup]
    have : (q == k) = false := by simpa [beq_eq_false_iff_ne] using hq
    rw [this]
  | cons kv rest ih =>
    obtain ⟨k2, v2⟩ := kv
    by_cases hk : k2 = k
    · subst hk
      simp only [assocSet, if_pos rfl, List.lookup]
      have : (q == k2) = false := by simpa [beq_eq_false_iff_ne] using hq
      rw [this]
    · simp only [assocSet, if_neg hk, List.lookup]
      cases hqk2 : q == k2 with
      | true => rfl
      | false => exact ih

theorem recordLatency_fin_eq (tr : LatencyTracker) (provider modelId : String)
    (tt tot : ℚ) (success : Bool) (now : Int) :
    tr.recordLatency provider modelId (.fin tt) (.fin tot) success now =
      LatencyTracker.mk
        (assocSet provider
          (recordLatencyUpdate
            ((tr.state.lookup provider).getD (freshProviderState tr.windowSize now))
            provider modelId tt tot success now tr.alpha)
          tr.state)
        tr.windowSize tr.alpha := rfl

/-- Claim C7: `recordLatency` is a no-op on non-finite inputs; on finite inputs
it always appends the full `LatencyRecord` to the record ring of the provider and
updates `lastUpdated`, while the success-sample ring, the EMA (seeded by the
first successful sample, then `ema ← α·sample + (1−α)·ema`) and the
`initialised` flag change exactly when `success = true`; the state of every
other provider is untouched, so failed attempts never change the EMA or the
percentile sample ring. -/
theorem recordLatency_spec (tr : LatencyTracker) (provider modelId : String)
    (ttfbMs totalMs : JsNum) (success : Bool) (now : Int) :
    (¬(ttfbMs.isFinite = true ∧ totalMs.isFinite = true) →
      tr.recordLatency provider modelId ttfbMs totalMs success now = tr) ∧
    (∀ tt tot, ttfbMs = .fin tt → totalMs = .fin tot →
      ∀ old, old = (tr.state.lookup provider).getD (freshProviderState tr.windowSize now) →
      (∃ ps',
        (tr.recordLatency provider modelId ttfbMs totalMs success now).state.lookup provider
            = some ps' ∧
        ps'.records = old.records.push ⟨provider, modelId, tt, tot, now, success⟩ ∧
        ps'.lastUpdated = now ∧
        (success = true →
          ps'.samples = old.samples.push tot ∧
          ps'.initialised = true ∧
          ps'.ema = (if old.initialised then calculateEma old.ema tot tr.alpha else tot)) ∧
        (success = false →
          ps'.samples = old.samples ∧ ps'.ema = old.ema ∧
          ps'.initialised = old.initialised)) ∧
      (∀ q, q ≠ provider →
        (tr.recordLatency provider modelId ttfbMs totalMs success now).state.lookup q
          = tr.state.lookup q)) := by
  constructor
  · intro hnf
    cases ttfbMs with
    | fin q1 =>
      cases totalMs with
      | fin q2 => exact absurd (by simp [JsNum.isFinite]) hnf
      | nan => rfl
      | posInf => rfl
      | negInf => rfl
    | nan => rfl
    | posInf => rfl
    | negInf => rfl
  · intro tt tot htt htot old hold
    subst htt
    subst htot
    rw [recordLatency_fin_eq, ← hold]
    constructor
    · refine ⟨recordLatencyUpdate old provider modelId tt tot success now tr.alpha,
        assocSet_lookup_self _ _ _, ?_, ?_, ?_, ?_⟩
      · cases success <;> simp [recordLatencyUpdate]
      · cases success <;> simp [recordLatencyUpdate]
      · intro hs
        subst hs
        refine ⟨by simp [recordLatencyUpdate], by simp [recordLatencyUpdate],
          by simp [recordLatencyUpdate]⟩
      · intro hs
        subst hs
        refine ⟨by simp [recordLatencyUpdate], by simp [recordLatencyUpdate],
          by simp [recordLatencyUpdate]⟩
    · intro q hq
      exact assocSet_lookup_ne _ _ _ hq _

/-- Witness for C7: a `NaN` ttfb leaves the fresh tracker unchanged, and one
successful finite sample seeds the EMA with that sample. -/
theorem recordLatency_spec_witness :
    (LatencyTracker.mk0 100 (3/10)).recordLatency "openai" "m" .nan (.fin 5) true 0 =
        LatencyTracker.mk0 100 (3/10) ∧
      ∃ ps', ((LatencyTracker.mk0 100 (3/10)).recordLatency "openai" "m"
          (.fin 1) (.fin 100) true 0).state.lookup "openai" = some ps' ∧
        ps'.ema = 100 := by
  constructor
  · exact (recordLatency_spec (LatencyTracker.mk0 100 (3/10)) "openai" "m"
      .nan (.fin 5) true 0).1 (by simp [JsNum.isFinite])
  · obtain ⟨⟨ps', hlook, _, _, hsucc, _⟩, _⟩ :=
      (recordLatency_spec (LatencyTracker.mk0 100 (3/10)) "openai" "m"
        (.fin 1) (.fin 100) true 0).2 1 100 rfl rfl _ rfl
    refine ⟨ps', hlook, ?_⟩
    rw [(hsucc rfl).2.2]
    simp [LatencyTracker.mk0, freshProviderState]

/-- Claim C5 (code bug): in `selectProvider`, a provider with *no* recorded
latency data is tied-broken with `emaMs = 0`, not `+∞`: `getStats` always
returns a stats object (zero-valued when there are no samples), so the
`?? Number.POSITIVE_INFINITY` fallback in the comparator is dead code.  With
equal scores, the never-measured `"anthropic"` is selected ahead of
`"openai"` whose EMA is 100 — the opposite of the claimed order. -/
theorem selectProvider_unknown_ema_sorts_first :
    selectProvider emaCexTracker
        [⟨"openai", true, 10⟩, ⟨"anthropic", true, 10⟩]
        [⟨"openai", "gpt-4o", 1/2⟩, ⟨"anthropic", "claude-3.5-sonnet", 1/2⟩] =
      .ok ⟨"anthropic", "claude-3.5-sonnet", 1/2⟩ ∧
    emaCexTracker.state.lookup "anthropic" = none ∧
    emaCexTracker.getStatsEmaMs "anthropic" = 0 ∧
    emaCexTracker.getStatsEmaMs "openai" = 100 := by
  have hanth : emaCexTracker.state.lookup "anthropic" = none := rfl
  have hanthe : emaCexTracker.getStatsEmaMs "anthropic" = 0 := rfl
  have hopene : emaCexTracker.getStatsEmaMs "openai" = 100 := by
    show jsRound2 100 = 100
    simp only [jsRound2, jsRound]
    norm_num
  have hf1 : availableFilter [⟨"openai", true, 10⟩, ⟨"anthropic", true, 10⟩]
      ⟨"openai", "gpt-4o", 1/2⟩ = true := by
    simp [availableFilter, List.find?]
  have hf2 : availableFilter [⟨"openai", true, 10⟩, ⟨"anthropic", true, 10⟩]
      ⟨"anthropic", "claude-3.5-sonnet", 1/2⟩ = true := by
    simp [availableFilter, List.find?]
  have hcmp : selectorCmp emaCexTracker ⟨"anthropic", "claude-3.5-sonnet", 1/2⟩
      ⟨"openai", "gpt-4o", 1/2⟩ < 0 := by
    simp [selectorCmp, hanthe, hopene]
  refine ⟨?_, hanth, hanthe, hopene⟩
  simp only [selectProvider, List.filter_cons, hf1, hf2, List.filter_nil,
    if_true, jsSortBy, List.foldl, jsSortInsert, if_pos hcmp]

theorem recordCost_totalCost (st : CostState) (p : ProviderName) (m : String)
    (i o : ℚ) (now : Int) :
    (recordCost st p m i o now).1.totalCostUsd =
      st.totalCostUsd + (recordCost st p m i o now).2.costUsd := by
  cases h : st.byModelRefs.lookup m with
  | none => simp [recordCost, h]
  | some r => simp [recordCost, h]

theorem recordCost_recent_le (st : CostState) (p : ProviderName) (m : String)
    (i o : ℚ) (now : Int) (h50 : st.recentRequests.length ≤ 50) :
    (recordCost st p m i o now).1.recentRequests.length ≤ 50 := by
  cases h : st.byModelRefs.lookup m with
  | none =>
    simp only [recordCost, h, MAX_RECENT_REQUESTS]
    split <;> simp_all
  | some r =>
    simp only [recordCost, h, MAX_RECENT_REQUESTS]
    split <;> simp_all

theorem applyCostCalls_total :
    ∀ (calls : List CostCall) (st : CostState),
      (applyCostCalls st calls).1.totalCostUsd =
        st.totalCostUsd + (((applyCostCalls st calls).2).map CostRecord.costUsd).sum := by
  intro calls
  induction calls with
  | nil => intro st; simp [applyCostCalls]
  | cons c rest ih =>
    intro st
    have ht := recordCost_totalCost st c.provider c.modelId c.inputTokens c.outputTokens c.now
    cases hrc : recordCost st c.provider c.modelId c.inputTokens c.outputTokens c.now with
    | mk st2 rec2 =>
      rw [hrc] at ht
      have h3 := ih st2
      cases hac : applyCostCalls st2 rest with
      | mk st3 recs =>
        rw [hac] at h3
        simp only [applyCostCalls, hrc, hac]
        dsimp only at ht h3 ⊢
        rw [h3, ht]
        simp [List.map_cons, List.sum_cons]
        ring

theorem applyCostCalls_recent :
    ∀ (calls : List CostCall) (st : CostState), st.recentRequests.length ≤ 50 →
      (applyCostCalls st calls).1.recentRequests.length ≤ 50 := by
  intro calls
  induction calls with
  | nil => intro st h; simpa [applyCostCalls] using h
  | cons c rest ih =>
    intro st h
    have h2 := recordCost_recent_le st c.provider c.modelId c.inputTokens c.outputTokens c.now h
    cases hrc : recordCost st c.provider c.modelId c.inputTokens c.outputTokens c.now with
    | mk st2 rec2 =>
      rw [hrc] at h2
      simp only [applyCostCalls, hrc]
      cases hac : applyCostCalls st2 rest with
      | mk st3 recs =>
        have h3 := ih st2 h2
        rw [hac] at h3
        simpa using h3

/-- Claim C8: `recordCost` prices each request as
`(inputTokens/1000)·inputPer1K + (outputTokens/1000)·outputPer1K` using the
pricing-table entry, with the conservative default `0.002`/`0.006` per 1K for
unknown ids; over any call sequence the cumulative total equals the exact sum
of the recorded per-request costs (ℚ models the float arithmetic, so the
"floating-point tolerance" is met exactly), and the recent-requests ring never
exceeds 50 entries. -/
theorem recordCost_spec :
    (∀ (st : CostState) (p : ProviderName) (m : String) (i o : ℚ) (now : Int),
      (recordCost st p m i o now).2.costUsd =
        (i / 1000) * (getModelPricing m).inputPer1k +
          (o / 1000) * (getModelPricing m).outputPer1k) ∧
    (∀ m : String, PRICING_TABLE.lookup m = none →
      (getModelPricing m).inputPer1k = 0.002 ∧
      (getModelPricing m).outputPer1k = 0.006) ∧
    (∀ calls : List CostCall,
      (applyCostCalls initialCostState calls).1.totalCostUsd =
        (((applyCostCalls initialCostState calls).2).map CostRecord.costUsd).sum ∧
      (applyCostCalls initialCostState calls).1.recentRequests.length ≤ 50) := by
  refine ⟨?_, ?_, ?_⟩
  · intro st p m i o now
    cases h : st.byModelRefs.lookup m with
    | none => simp [recordCost, h]
    | some r => simp [recordCost, h]
  · intro m hm
    simp [getModelPricing, hm, DEFAULT_PRICING]
  · intro calls
    constructor
    · have h := applyCostCalls_total calls initialCostState
      simpa [initialCostState] using h
    · exact applyCostCalls_recent calls initialCostState (by simp [initialCostState])

/-- Witness for C8: an id absent from the pricing table gets the conservative
default rates. -/
theorem recordCost_spec_witness :
    (getModelPricing "model-x").inputPer1k = 0.002 ∧
      (getModelPricing "model-x").outputPer1k = 0.006 :=
  recordCost_spec.2.1 "model-x" (by decide)

theorem lookup_mem_snd {l : List (String × Nat)} {m : String} {r : Nat}
    (h : l.lookup m = some r) : r ∈ l.map Prod.snd := by
  induction l with
  | nil => simp [List.lookup] at h
  | cons kv rest ih =>
    obtain ⟨k, v⟩ := kv
    simp only [List.lookup] at h
    cases hmk : m == k with
    | true =>
      rw [hmk] at h
      simp only [Option.some.injEq] at h
      subst h
      simp
    | false =>
      rw [hmk] at h
      simp only [List.map_cons, List.mem_cons]
      exact Or.inr (ih h)

theorem lookup_mem_pair {l : List (String × Nat)} {m : String} {r : Nat}
    (h : l.lookup m = some r) : (m, r) ∈ l := by
  induction l with
  | nil => simp [List.lookup] at h
  | cons kv rest ih =>
    obtain ⟨k, v⟩ := kv
    simp only [List.lookup] at h
    cases hmk : m == k with
    | true =>
      rw [hmk] at h
      simp only [Option.some.injEq] at h
      subst h
      have : m = k := by simpa using hmk
      subst this
      simp
    | false =>
      rw [hmk] at h
      exact List.mem_cons_of_mem _ (ih h)

theorem lookup_none_not_key {l : List (String × Nat)} {m : String}
    (h : l.lookup m = none) : m ∉ l.map Prod.fst := by
  induction l with
  | nil => simp
  | cons kv rest ih =>
    obtain ⟨k, v⟩ := kv
    simp only [List.lookup] at h
    cases hmk : m == k with
    | true => rw [hmk] at h; simp at h
    | false =>
      rw [hmk] at h
      simp only [List.map_cons, List.mem_cons]
      rintro (rfl | hmem)
      · simp at hmk
      · exact ih h hmem

theorem lookup_ref_inj {l : List (String × Nat)} (hnd : (l.map Prod.snd).Nodup)
    {m m2 : String} {r r2 : Nat} (hne : m ≠ m2)
    (h1 : l.lookup m = some r) (h2 : l.lookup m2 = some r2) : r ≠ r2 := by
  induction l with
  | nil => simp [List.lookup] at h1
  | cons kv rest ih =>
    obtain ⟨k, v⟩ := kv
    simp only [List.lookup] at h1 h2
    simp only [List.map_cons, List.nodup_cons] at hnd
    obtain ⟨hv, hnd2⟩ := hnd
    cases hmk : m == k with
    | true =>
      rw [hmk] at h1
      simp only [Option.some.injEq] at h1
      subst h1
      have hk : m = k := by simpa using hmk
      have hm2k : (m2 == k) = false := by
        subst hk
        simpa using (Ne.symm hne)
      rw [hm2k] at h2
      intro heq
      subst heq
      exact hv (lookup_mem_snd h2)
    | false =>
      rw [hmk] at h1
      cases hm2k : m2 == k with
      | true =>
        rw [hm2k] at h2
        simp only [Option.some.injEq] at h2
        subst h2
        intro heq
        subst heq
        exact hv (lookup_mem_snd h1)
      | false =>
        rw [hm2k] at h2
        exact ih hnd2 h1 h2

theorem costWF_initial : CostWF initialCostState := by
  refine ⟨?_, ?_, ?_⟩ <;> simp [initialCostState]

theorem costWF_recordCost (st : CostState) (hwf : CostWF st) (p : ProviderName)
    (m : String) (i o : ℚ) (now : Int) : CostWF (recordCost st p m i o now).1 := by
  obtain ⟨hb, hsnd, hfst⟩ := hwf
  cases h : st.byModelRefs.lookup m with
  | some r =>
    simp only [recordCost, h]
    refine ⟨?_, hsnd, hfst⟩
    intro pr hpr
    simpa [List.length_set] using hb pr hpr
  | none =>
    simp only [recordCost, h]
    refine ⟨?_, ?_, ?_⟩
    · intro pr hpr
      simp only [List.length_set, List.length_append, List.length_cons, List.length_nil]
      rcases List.mem_append.mp hpr with hpr | hpr
      · have := hb pr hpr
        omega
      · simp only [List.mem_cons, List.not_mem_nil, or_false] at hpr
        subst hpr
        simp
    · rw [List.map_append]
      simp only [List.map_cons, List.map_nil]
      rw [List.nodup_append]
      refine ⟨hsnd, List.nodup_singleton _, ?_⟩
      intro x hx
      obtain ⟨pr, hpr, rfl⟩ := List.mem_map.mp hx
      have := hb pr hpr
      simp only [List.mem_singleton]
      omega
    · rw [List.map_append]
      simp only [List.map_cons, List.map_nil]
      rw [List.nodup_append]
      refine ⟨hfst, List.nodup_singleton _, ?_⟩
      intro x hx
      simp only [List.mem_singleton]
      intro hxm
      subst hxm
      exact lookup_none_not_key h hx

theorem costWF_applyCostCalls_aux :
    ∀ (calls : List CostCall) (st : CostState), CostWF st →
      CostWF (applyCostCalls st calls).1 := by
  intro calls
  induction calls with
  | nil => intro st h; simpa [applyCostCalls] using h
  | cons c rest ih =>
    intro st h
    have h2 := costWF_recordCost st h c.provider c.modelId c.inputTokens c.outputTokens c.now
    cases hrc : recordCost st c.provider c.modelId c.inputTokens c.outputTokens c.now with
    | mk st2 rec2 =>
      rw [hrc] at h2
      simp only [applyCostCalls, hrc]
      cases hac : applyCostCalls st2 rest with
      | mk st3 recs =>
        have h3 := ih st2 h2
        rw [hac] at h3
        simpa using h3

/-- Every state reachable from the module-level initial state is
well-formed. -/
theorem costWF_applyCostCalls (calls : List CostCall) :
    CostWF (applyCostCalls initialCostState calls).1 :=
  costWF_applyCostCalls_aux calls initialCostState costWF_initial

/-- Claim C9 (amended): `getCostSummary` value-copies the totals, the
per-provider stats and the recent-requests array, so those parts of a summary
are unaffected by later `recordCost` calls, and a later `recordCost` for a
model id absent from the snapshot leaves every snapshot `byModel` entry
unchanged; but the snapshot `byModel` map shares the per-model stats
objects with the tracker (`{ ...byModel }` copies only the references), so a
later `recordCost` for a model id present in the snapshot is visible through
the snapshot entry, whose request count and cost totals change in place.
`CostWF` holds for every state reachable from the initial state
(`costWF_applyCostCalls`). -/
theorem getCostSummary_snapshot_amended (st : CostState) (hwf : CostWF st)
    (p : ProviderName) (m : String) (i o : ℚ) (now : Int) :
    (∀ m2, m2 ≠ m →
      summaryByModel (getCostSummary st) (recordCost st p m i o now).1.byModelCells m2 =
        summaryByModel (getCostSummary st) st.byModelCells m2) ∧
    (∀ v, summaryByModel (getCostSummary st) st.byModelCells m = some v →
      summaryByModel (getCostSummary st) (recordCost st p m i o now).1.byModelCells m =
        some ⟨v.requests + 1, v.totalCost + (recordCost st p m i o now).2.costUsd⟩) := by
  obtain ⟨hb, hsnd, hfst⟩ := hwf
  constructor
  · intro m2 hm2
    simp only [summaryByModel, getCostSummary]
    cases h2 : st.byModelRefs.lookup m2 with
    | none => simp
    | some r2 =>
      simp only [Option.map_some']
      cases h : st.byModelRefs.lookup m with
      | some r =>
        have hrr : r ≠ r2 := lookup_ref_inj hsnd (Ne.symm hm2) h h2
        simp only [recordCost, h]
        rw [List.getD_eq_getElem?_getD, List.getD_eq_getElem?_getD,
          List.getElem?_set_ne hrr, List.getD_eq_getElem?_getD]
      | none =>
        have hr2len : r2 < st.byModelCells.length := hb (m2, r2) (lookup_mem_pair h2)
        simp only [recordCost, h]
        rw [List.getD_eq_getElem?_getD, List.getD_eq_getElem?_getD,
          List.getElem?_set_ne (by omega : st.byModelCells.length ≠ r2),
          List.getElem?_append_left hr2len, List.getD_eq_getElem?_getD]
  · intro v hv
    simp only [summaryByModel, getCostSummary] at hv ⊢
    cases h : st.byModelRefs.lookup m with
    | none => rw [h] at hv; simp at hv
    | some r =>
      rw [h] at hv
      simp only [Option.map_some', Option.some.injEq] at hv
      have hrlen : r < st.byModelCells.length := hb (m, r) (lookup_mem_pair h)
      simp only [recordCost, h, Option.map_some', Option.some.injEq]
      rw [List.getD_eq_getElem?_getD, List.getElem?_set_self hrlen]
      simp [← hv]

/-- Witness for C9 (amended), at the initial state: recording model
`"gpt-4o"` does not disturb the (absent) snapshot entry of `"other"`. -/
theorem getCostSummary_snapshot_amended_witness :
    summaryByModel (getCostSummary initialCostState)
        (recordCost initialCostState .openai "gpt-4o" 0 0 0).1.byModelCells "other" =
      summaryByModel (getCostSummary initialCostState)
        initialCostState.byModelCells "other" :=
  (getCostSummary_snapshot_amended initialCostState costWF_initial
    .openai "gpt-4o" 0 0 0).1 "other" (by decide)

/-- Counterexample to C9 as stated: take the summary after one
`recordCost(openai, "gpt-4o", 1000, 1000)`; a second `recordCost` on the same
model changes the request count seen through the summary `byModel` entry
from 1 to 2. -/
theorem getCostSummary_byModel_shared_counterexample :
    (summaryByModel (getCostSummary costCexState1) costCexState1.byModelCells
        "gpt-4o").map ModelCostStats.requests = some 1 ∧
    (summaryByModel (getCostSummary costCexState1) costCexState2.byModelCells
        "gpt-4o").map ModelCostStats.requests = some 2 ∧
    (1 : Nat) ≠ 2 := by
  refine ⟨?_, ?_, by omega⟩
  · simp [costCexState1, initialCostState, recordCost, getCostSummary,
      summaryByModel, List.lookup]
  · simp [costCexState2, costCexState1, initialCostState, recordCost, getCostSummary,
      summaryByModel, List.lookup]

end AIGateway
